import Mathlib

/-!
# GameHub — verification of the multiplayer tic-tac-toe coordinator and the
# Qibla bearing calculator

This file is a shallow embedding of the two specified cores of the repository:

* the Turn-Based Match Coordinator of `src/gamehub.jsx`
  (`TicTacToeMultiplayer`: `calculateWinner`, `createNewGame`, `joinGame`,
  `makeMove`, `resetCurrentGame`, `leaveGame`), modelled as pure transformers
  of the shared `MatchDoc` document that the remote store holds; and
* the Bearing Calculator of the compass script (`getQiblaAngle`,
  `handleOrientation`), modelled over the real numbers.

The store itself (Firestore) is external: each coordinator operation is
modelled as the function from the current match document to the document it
writes (or `none` when it deletes the document).  Timestamp fields
(`createdAt`, `lastMoveAt`) are not modelled; no claim concerns them.
-/

namespace GameHub

/-- A cell mark. JS represents a mark as the string `'X'` or `'O'`. -/
inductive Mark where
  | X : Mark
  | O : Mark
deriving DecidableEq, Repr

/-- The toggle `playerRole === 'X' ? 'O' : 'X'` used by `makeMove`. -/
def Mark.other : Mark → Mark
  | .X => .O
  | .O => .X

/-- The non-null values of the `winner` field: `'X'`, `'O'` or `'Draw'`.
The field itself is `Option GameResult` (JS `null` = `none`). -/
inductive GameResult where
  | mark : Mark → GameResult
  | draw : GameResult
deriving DecidableEq, Repr

/-- The `status` field: `'waiting' | 'inProgress' | 'finished'`. -/
inductive Status where
  | waiting : Status
  | inProgress : Status
  | finished : Status
deriving DecidableEq, Repr

/-- The board: a JS array of 9 cells, each `null`, `'X'` or `'O'`. -/
abbrev Board := List (Option Mark)

/-- The `players` field: `{ player1Id, player2Id }`; `player2Id` is `null`
until someone joins. -/
structure Players where
  player1Id : String
  player2Id : Option String
deriving DecidableEq, Repr

/-- The match document stored in the `ticTacToeGames` collection
(timestamps omitted). -/
structure MatchDoc where
  players : Players
  board : Board
  currentPlayer : Mark
  status : Status
  winner : Option GameResult
deriving DecidableEq, Repr

/-- The 8 winning lines of `calculateWinner`, in source order:
3 rows, 3 columns, 2 diagonals. -/
def lines : List (Nat × Nat × Nat) :=
  [(0, 1, 2), (3, 4, 5), (6, 7, 8),
   (0, 3, 6), (1, 4, 7), (2, 5, 8),
   (0, 4, 8), (2, 4, 6)]

/-- `squares[i]` on a JS array: out-of-range access yields `undefined`,
modelled as `none`. -/
def cellAt (b : Board) (i : Nat) : Option Mark :=
  b.getD i none

/-- One iteration of the `calculateWinner` loop: the body
`squares[a] && squares[a] === squares[b] && squares[a] === squares[c]`
returns `squares[a]` when the line is filled by one mark. -/
def lineWin (b : Board) (l : Nat × Nat × Nat) : Option Mark :=
  match cellAt b l.1 with
  | none => none
  | some m =>
      if cellAt b l.2.1 = some m ∧ cellAt b l.2.2 = some m then some m
      else none

/-- `calculateWinner(squares)` of `src/gamehub.jsx` (lines 273-289): the for
loop returns the first winning line's mark; otherwise
`squares.every(square => square !== null)` yields `'Draw'`; otherwise `null`. -/
def calculateWinner (b : Board) : Option GameResult :=
  match lines.findSome? (lineWin b) with
  | some m => some (.mark m)
  | none => if b.all (fun c => c.isSome) then some .draw else none

/-- The document written by `createNewGame` (lines 292-315):
`players: {player1Id: userId, player2Id: null}`, empty board,
`currentPlayer: 'X'`, `status: 'waiting'`, `winner: null`. -/
def createMatch (ownerId : String) : MatchDoc :=
  { players := { player1Id := ownerId, player2Id := none }
    board := List.replicate 9 none
    currentPlayer := .X
    status := .waiting
    winner := none }

/-- The role the snapshot listener derives for a user (lines 234-244):
`'X'` when `players.player1Id === userId`, `'O'` when
`players.player2Id === userId`, `null` (observer) otherwise. -/
def roleOf (d : MatchDoc) (userId : String) : Option Mark :=
  if d.players.player1Id = userId then some .X
  else if d.players.player2Id = some userId then some .O
  else none

/-- `joinGame(gameId, player1Id)` (lines 318-344) as a transformation of the
match document: if `player1Id === userId` the join is rejected locally
("Cannot Join") with no store write; otherwise `updateDoc` sets
`players.player2Id = userId` and `status = 'inProgress'`.  (The additional
`gameId === currentGameId` early return concerns only the caller's local
navigation state, not the document.) -/
def joinGame (d : MatchDoc) (joinerId : String) : MatchDoc :=
  if d.players.player1Id = joinerId then d
  else
    { d with
        players := { d.players with player2Id := some joinerId }
        status := .inProgress }

/-- `makeMove(i)` (lines 347-372) as a transformation of the match document,
performed by the user `actorId` whose derived role is `roleOf d actorId`.
The guard
`winner || board[i] || status !== 'inProgress' || currentPlayer !== playerRole`
returns without writing; otherwise `newBoard[i] = playerRole`, the winner is
recomputed, `currentPlayer` is toggled and `status` becomes `'finished'`
exactly when the recomputed winner is non-null. -/
def makeMove (d : MatchDoc) (actorId : String) (i : Nat) : MatchDoc :=
  match roleOf d actorId with
  | none => d
  | some role =>
      if d.winner ≠ none ∨ cellAt d.board i ≠ none ∨
          d.status ≠ .inProgress ∨ d.currentPlayer ≠ role then d
      else
        let newBoard := d.board.set i (some role)
        let newWinner := calculateWinner newBoard
        { d with
            board := newBoard
            currentPlayer := role.other
            winner := newWinner
            status := if newWinner.isSome then .finished else .inProgress }

/-- `resetCurrentGame()` (lines 390-408): guarded by `!playerRole` (only a
player may reset); clears the board, sets `currentPlayer = 'X'`,
`winner = null`, `status = 'inProgress'`; the `players` field is untouched. -/
def resetCurrentGame (d : MatchDoc) (actorId : String) : MatchDoc :=
  match roleOf d actorId with
  | none => d
  | some _ =>
      { d with
          board := List.replicate 9 none
          currentPlayer := .X
          winner := none
          status := .inProgress }

/-- `leaveGame()` (lines 411-452) as a transformation of the match document
(`none` = the document was deleted): the sole player deletes the document;
player1 leaving with a player2 present promotes player2 into `player1Id`,
clears `player2Id`, sets `status = 'waiting'` and `winner = null`; player2
leaving clears `player2Id`, sets `status = 'waiting'` and `winner = null`;
a non-player's leave issues no write. -/
def leaveGame (d : MatchDoc) (userId : String) : Option MatchDoc :=
  if d.players.player1Id = userId then
    match d.players.player2Id with
    | none => none
    | some p2 =>
        some { d with
                 players := { player1Id := p2, player2Id := none }
                 status := .waiting
                 winner := none }
  else if d.players.player2Id = some userId then
    some { d with
             players := { d.players with player2Id := none }
             status := .waiting
             winner := none }
  else some d

/-- The acceptance condition of `makeMove`: the negation of its rejection
guard (role defined and equal to `currentPlayer`, no winner yet, target cell
empty, match in progress). -/
def accepts (d : MatchDoc) (actorId : String) (i : Nat) : Prop :=
  roleOf d actorId = some d.currentPlayer ∧ d.winner = none ∧
    cellAt d.board i = none ∧ d.status = .inProgress

instance (d : MatchDoc) (actorId : String) (i : Nat) :
    Decidable (accepts d actorId i) := by
  unfold accepts
  infer_instance

/-- A board used in several scenarios: `[X,X,X,_,O,O,_,_,_]`. -/
def demoBoard : Board :=
  [some .X, some .X, some .X, none, some .O, some .O, none, none, none]

/-- The document right after `createNewGame` by `"alice"` followed by
`joinGame` by `"bob"`. -/
def demoDoc : MatchDoc := joinGame (createMatch "alice") "bob"

/-- A finished document with both players present, used to exercise
`joinGame` against a non-waiting match. -/
def finishedDoc : MatchDoc :=
  { players := { player1Id := "alice", player2Id := some "bob" }
    board := demoBoard
    currentPlayer := .O
    status := .finished
    winner := some (.mark .X) }

/-- A rejected `makeMove` writes nothing: the document is unchanged. -/
theorem makeMove_rejected (d : MatchDoc) (actorId : String) (i : Nat)
    (h : ¬ accepts d actorId i) : makeMove d actorId i = d := by
  unfold makeMove
  split
  · rfl
  · rename_i r hr
    have hguard : d.winner ≠ none ∨ cellAt d.board i ≠ none ∨
        d.status ≠ .inProgress ∨ d.currentPlayer ≠ r := by
      by_contra hc
      push_neg at hc
      exact h ⟨by rw [hr, hc.2.2.2], hc.1, hc.2.1, hc.2.2.1⟩
    rw [if_pos hguard]

/-- An accepted `makeMove` writes exactly the document described by the
source: the cell set to the mover's role (= `currentPlayer`), the winner
recomputed on the new board, `currentPlayer` toggled, and `status` finished
iff the recomputed winner is non-null. -/
theorem makeMove_accepted (d : MatchDoc) (actorId : String) (i : Nat)
    (h : accepts d actorId i) :
    makeMove d actorId i =
      { d with
          board := d.board.set i (some d.currentPlayer)
          currentPlayer := d.currentPlayer.other
          winner := calculateWinner (d.board.set i (some d.currentPlayer))
          status :=
            if (calculateWinner (d.board.set i (some d.currentPlayer))).isSome
            then .finished else .inProgress } := by
  obtain ⟨hrole, hw, hc, hs⟩ := h
  unfold makeMove
  split
  · rename_i hr
    rw [hrole] at hr
    cases hr
  · rename_i r hr
    rw [hrole] at hr
    obtain rfl : r = d.currentPlayer := (Option.some.inj hr).symm
    have hguard : ¬ (d.winner ≠ none ∨ cellAt d.board i ≠ none ∨
        d.status ≠ .inProgress ∨ d.currentPlayer ≠ d.currentPlayer) := by
      push_neg
      exact ⟨hw, hc, hs, rfl⟩
    rw [if_neg hguard]

/-- A `makeMove` aimed at an occupied cell is a no-op. -/
theorem makeMove_of_occupied (d : MatchDoc) (actorId : String) (i : Nat)
    (h : cellAt d.board i ≠ none) : makeMove d actorId i = d :=
  makeMove_rejected d actorId i (fun hacc => h hacc.2.2.1)

/-- If `makeMove` changed the document at all, the move was accepted. -/
theorem accepts_of_makeMove_ne (d : MatchDoc) (actorId : String) (i : Nat)
    (h : makeMove d actorId i ≠ d) : accepts d actorId i := by
  by_contra hc
  exact h (makeMove_rejected d actorId i hc)

/-- Reading back the cell just set. -/
theorem cellAt_set_self (b : Board) (i : Nat) (m : Option Mark)
    (h : i < b.length) : cellAt (b.set i m) i = m := by
  unfold cellAt
  rw [List.getD_eq_getElem?_getD, List.getElem?_set_self h]
  rfl

/-- Setting one cell leaves every other cell unchanged. -/
theorem cellAt_set_ne (b : Board) (i j : Nat) (m : Option Mark)
    (h : i ≠ j) : cellAt (b.set i m) j = cellAt b j := by
  unfold cellAt
  rw [List.getD_eq_getElem?_getD, List.getD_eq_getElem?_getD,
    List.getElem?_set_ne h]

/-- **C1**: for every 9-cell match document and every
`submitMove(matchId, actorId, cellIndex)`: if the match is not `inProgress`,
or `winner` is already set, or the target cell is occupied, or the actor's
assigned role is not `currentPlayer`, the call is a no-op (the document is
unchanged); otherwise the call marks exactly that cell with the actor's role,
recomputes the winner by line-scan, toggles `currentPlayer`, sets `status` to
`finished` exactly when the winner is non-none — and any repeated call
against the now-occupied cell is a no-op. -/
theorem submitMove_spec (d : MatchDoc) (actorId : String) (i : Nat)
    (hlen : d.board.length = 9) (hi : i < 9) :
    ((d.status ≠ .inProgress ∨ d.winner ≠ none ∨ cellAt d.board i ≠ none ∨
        roleOf d actorId ≠ some d.currentPlayer) → makeMove d actorId i = d) ∧
    (accepts d actorId i →
      makeMove d actorId i =
        { d with
            board := d.board.set i (some d.currentPlayer)
            currentPlayer := d.currentPlayer.other
            winner := calculateWinner (d.board.set i (some d.currentPlayer))
            status :=
              if (calculateWinner
                    (d.board.set i (some d.currentPlayer))).isSome
              then .finished else .inProgress } ∧
      ∀ laterActorId, makeMove (makeMove d actorId i) laterActorId i =
        makeMove d actorId i) := by
  constructor
  · intro h
    apply makeMove_rejected
    rintro ⟨h1, h2, h3, h4⟩
    rcases h with h | h | h | h <;> contradiction
  · intro h
    refine ⟨makeMove_accepted d actorId i h, fun laterActorId => ?_⟩
    apply makeMove_of_occupied
    rw [makeMove_accepted d actorId i h]
    rw [cellAt_set_self d.board i (some d.currentPlayer) (by omega)]
    simp

/-- Witness for C1: in the alice/bob demo match, alice's accepted move at
cell 0 makes any follow-up move at cell 0 a no-op. -/
theorem submitMove_spec_witness :
    makeMove (makeMove demoDoc "alice" 0) "bob" 0 = makeMove demoDoc "alice" 0 :=
  ((submitMove_spec demoDoc "alice" 0 (by decide) (by decide)).2
    (by decide)).2 "bob"

/-- **C5**: every accepted move changes exactly one of the 9 cells, that cell
was empty before the move (a filled cell is never overwritten), and
`currentPlayer` flips to the opposite mark (X becomes O and O becomes X). -/
theorem acceptedMove_frame (d : MatchDoc) (actorId : String) (i : Nat)
    (hlen : d.board.length = 9) (hi : i < 9) (h : accepts d actorId i) :
    cellAt d.board i = none ∧
    cellAt (makeMove d actorId i).board i = some d.currentPlayer ∧
    (∀ j, j ≠ i → cellAt (makeMove d actorId i).board j = cellAt d.board j) ∧
    (makeMove d actorId i).board.length = d.board.length ∧
    (makeMove d actorId i).currentPlayer = d.currentPlayer.other ∧
    (d.currentPlayer = .X → (makeMove d actorId i).currentPlayer = .O) ∧
    (d.currentPlayer = .O → (makeMove d actorId i).currentPlayer = .X) := by
  rw [makeMove_accepted d actorId i h]
  refine ⟨h.2.2.1, ?_, ?_, ?_, rfl, ?_, ?_⟩
  · exact cellAt_set_self d.board i (some d.currentPlayer) (by omega)
  · intro j hj
    exact cellAt_set_ne d.board i j (some d.currentPlayer) (fun he => hj he.symm)
  · exact List.length_set d.board i (some d.currentPlayer)
  · intro hx; rw [hx]; rfl
  · intro ho; rw [ho]; rfl

/-- Witness for C5: alice's accepted move at cell 0 of the demo match leaves
cells 1..8 as they were; shown here at cell 5. -/
theorem acceptedMove_frame_witness :
    cellAt (makeMove demoDoc "alice" 0).board 5 = cellAt demoDoc.board 5 :=
  ((acceptedMove_frame demoDoc "alice" 0 (by decide) (by decide)
    (by decide)).2.2.1) 5 (by decide)

/-- **C6**: `joinMatch` by the creator of the match is rejected locally as a
no-op (no store write, document unchanged); a join by anyone else sets
`player2Id` to the joiner and `status` to `inProgress` — as in the scenario
where alice's fresh match (`waiting`, no player2) is joined by bob. -/
theorem joinMatch_spec (d : MatchDoc) (joinerId : String) :
    (d.players.player1Id = joinerId → joinGame d joinerId = d) ∧
    (d.players.player1Id ≠ joinerId →
      joinGame d joinerId =
        { d with
            players := { d.players with player2Id := some joinerId }
            status := .inProgress }) ∧
    (createMatch "alice").status = .waiting ∧
    (createMatch "alice").players.player2Id = none ∧
    (joinGame (createMatch "alice") "bob").status = .inProgress ∧
    (joinGame (createMatch "alice") "bob").players.player2Id = some "bob" := by
  refine ⟨?_, ?_, rfl, rfl, by decide, by decide⟩
  · intro h; unfold joinGame; rw [if_pos h]
  · intro h; unfold joinGame; rw [if_neg h]

/-- Witness for C6: carol joining alice's fresh match writes
`player2Id = "carol"` and `status = inProgress`. -/
theorem joinMatch_spec_witness :
    joinGame (createMatch "alice") "carol" =
      { createMatch "alice" with
          players :=
            { (createMatch "alice").players with player2Id := some "carol" }
          status := .inProgress } :=
  (joinMatch_spec (createMatch "alice") "carol").2.1 (by decide)

/-- **C10**: `joinGame` applies no guard on the target match's state beyond
the own-match check: whatever the current `status`, `winner` or `player2Id`,
any joiner other than player1 is written as `player2Id` with `status`
forced to `inProgress`, the other fields (including `winner`) untouched. -/
theorem joinMatch_no_state_guard (d : MatchDoc) (joinerId : String)
    (h : d.players.player1Id ≠ joinerId) :
    (joinGame d joinerId).players.player2Id = some joinerId ∧
    (joinGame d joinerId).status = .inProgress ∧
    (joinGame d joinerId).players.player1Id = d.players.player1Id ∧
    (joinGame d joinerId).winner = d.winner ∧
    (joinGame d joinerId).board = d.board ∧
    (joinGame d joinerId).currentPlayer = d.currentPlayer := by
  unfold joinGame
  rw [if_neg h]
  exact ⟨rfl, rfl, rfl, rfl, rfl, rfl⟩

/-- Witness for C10: carol joins a finished match that already has a
player2 — bob is overwritten, the match reopens as `inProgress`, and the
stale `winner = X` is left in place. -/
theorem joinMatch_no_state_guard_witness :
    (joinGame finishedDoc "carol").players.player2Id = some "carol" ∧
    (joinGame finishedDoc "carol").status = .inProgress ∧
    (joinGame finishedDoc "carol").winner = some (.mark .X) := by
  obtain h := joinMatch_no_state_guard finishedDoc "carol" (by decide)
  exact ⟨h.1, h.2.1, h.2.2.2.1⟩

/-- **C7**: `leaveMatch` by cases: the sole player's leave deletes the
document (in particular immediately after `createMatch`); player1 leaving
with a player2 present promotes player2 to `player1Id`, clears `player2Id`,
sets `status = waiting` and clears `winner`; player2 leaving clears
`player2Id`, sets `status = waiting` and clears `winner`; and no leave that
keeps the document ever changes the board. -/
theorem leaveMatch_spec (d : MatchDoc) (leaverId : String) :
    (d.players.player1Id = leaverId → d.players.player2Id = none →
      leaveGame d leaverId = none) ∧
    (∀ p2, d.players.player1Id = leaverId → d.players.player2Id = some p2 →
      leaveGame d leaverId =
        some { d with
                 players := { player1Id := p2, player2Id := none }
                 status := .waiting
                 winner := none }) ∧
    (d.players.player1Id ≠ leaverId → d.players.player2Id = some leaverId →
      leaveGame d leaverId =
        some { d with
                 players := { d.players with player2Id := none }
                 status := .waiting
                 winner := none }) ∧
    (∀ d', leaveGame d leaverId = some d' → d'.board = d.board) ∧
    (∀ ownerId, leaveGame (createMatch ownerId) ownerId = none) := by
  refine ⟨?_, ?_, ?_, ?_, ?_⟩
  · intro h1 h2
    unfold leaveGame
    rw [if_pos h1, h2]
  · intro p2 h1 h2
    unfold leaveGame
    rw [if_pos h1, h2]
  · intro h1 h2
    unfold leaveGame
    rw [if_neg h1, if_pos h2]
  · intro d' hd'
    unfold leaveGame at hd'
    split_ifs at hd' with h1 h2
    · revert hd'
      cases d.players.player2Id with
      | none => intro hd'; cases hd'
      | some p2 => intro hd'; cases hd'; rfl
    · cases hd'; rfl
    · cases hd'; rfl
  · intro ownerId
    unfold leaveGame createMatch
    simp

/-- Witness for C7: alice leaving her freshly created match (she is the sole
player) deletes the document. -/
theorem leaveMatch_spec_witness :
    leaveGame (createMatch "alice") "alice" = none :=
  (leaveMatch_spec (createMatch "alice") "alice").1 rfl rfl

/-- One coordinator operation against the current match document. -/
inductive Op where
  | join : String → Op
  | move : String → Nat → Op
  | leave : String → Op
  | reset : String → Op

/-- Apply one operation; `none` means the document was deleted. -/
def applyOp (d : MatchDoc) : Op → Option MatchDoc
  | .join j => some (joinGame d j)
  | .move a i => some (makeMove d a i)
  | .leave u => leaveGame d u
  | .reset u => some (resetCurrentGame d u)

/-- Match documents reachable from some `createMatch` by a sequence of
coordinator operations. -/
inductive Reachable : MatchDoc → Prop where
  | init (ownerId : String) : Reachable (createMatch ownerId)
  | step {d d' : MatchDoc} (op : Op) :
      Reachable d → applyOp d op = some d' → Reachable d'

/-- **C4** (amended): in every reachable match document only the forward
implications of the claimed invariants hold: `status = finished` implies
`winner ≠ none`, and `status = waiting` implies `player2Id = null`.  The
biconditionals of the claim fail (see the counterexample theorem): a reset by
the sole player of a waiting match yields `status = inProgress` with
`player2Id = null`, and a join of a finished match yields
`status = inProgress` with `winner` still set. -/
theorem reachable_invariants (d : MatchDoc) (h : Reachable d) :
    (d.status = .finished → d.winner ≠ none) ∧
    (d.status = .waiting → d.players.player2Id = none) := by
  induction h with
  | init ownerId => exact ⟨fun hfin => (nomatch hfin), fun _ => rfl⟩
  | step op hR hop ih =>
      rename_i d₀ d'
      cases op with
      | join j =>
          simp only [applyOp, Option.some.injEq] at hop
          subst hop
          by_cases h1 : d₀.players.player1Id = j
          · simp only [joinGame, if_pos h1]
            exact ih
          · simp only [joinGame, if_neg h1]
            exact ⟨fun hfin => (nomatch hfin),
                   fun hwait => (nomatch hwait)⟩
      | move a i =>
          simp only [applyOp, Option.some.injEq] at hop
          subst hop
          by_cases hacc : accepts d₀ a i
          · rw [makeMove_accepted d₀ a i hacc]
            rcases hw : calculateWinner (d₀.board.set i (some d₀.currentPlayer))
              with _ | w
            · refine ⟨fun hfin => ?_, fun hwait => ?_⟩
              · simp only [hw, Option.isSome_none, Bool.false_eq_true,
                  if_false] at hfin
                exact (nomatch hfin)
              · simp only [hw, Option.isSome_none, Bool.false_eq_true,
                  if_false] at hwait
                exact (nomatch hwait)
            · refine ⟨fun _ => ?_, fun hwait => ?_⟩
              · simp [hw]
              · simp only [hw, Option.isSome_some, if_true] at hwait
                exact (nomatch hwait)
          · rw [makeMove_rejected d₀ a i hacc]
            exact ih
      | leave u =>
          simp only [applyOp] at hop
          unfold leaveGame at hop
          split_ifs at hop with h1 h2
          · revert hop
            cases d₀.players.player2Id with
            | none => intro hop; cases hop
            | some p2 =>
                intro hop
                cases hop
                exact ⟨fun hfin => (nomatch hfin), fun _ => rfl⟩
          · cases hop
            exact ⟨fun hfin => (nomatch hfin), fun _ => rfl⟩
          · cases hop
            exact ih
      | reset u =>
          simp only [applyOp, Option.some.injEq] at hop
          subst hop
          unfold resetCurrentGame
          split
          · exact ih
          · exact ⟨fun hfin => (nomatch hfin),
                   fun hwait => (nomatch hwait)⟩

/-- Witness for the amended C4: alice's freshly created match satisfies the
invariant — it is waiting, and indeed has no player2. -/
theorem reachable_invariants_witness :
    (createMatch "alice").players.player2Id = none :=
  (reachable_invariants (createMatch "alice") (Reachable.init "alice")).2 rfl

/-- **C4** counterexample: the claimed biconditional
`status = waiting ↔ player2Id = null` fails on a reachable document — and in
particular `resetMatch` does not preserve it: alice resets her freshly
created, still waiting, single-player match, and the result has
`status = inProgress` while `player2Id` is still `null`. -/
theorem reset_breaks_waiting_iff :
    Reachable (resetCurrentGame (createMatch "alice") "alice") ∧
    ¬ ((resetCurrentGame (createMatch "alice") "alice").status = .waiting ↔
        (resetCurrentGame (createMatch "alice") "alice").players.player2Id
          = none) := by
  constructor
  · exact Reachable.step (Op.reset "alice") (Reachable.init "alice") rfl
  · decide

/-- Every cell of the board is filled (`squares.every(square => square !== null)`). -/
def boardFull (b : Board) : Prop := ∀ c ∈ b, c ≠ none

theorem boardFull_iff_all (b : Board) :
    (b.all fun c => c.isSome) = true ↔ boardFull b := by
  rw [List.all_eq_true]
  unfold boardFull
  constructor
  · intro h c hc
    exact Option.isSome_iff_ne_none.mp (h c hc)
  · intro h c hc
    exact Option.isSome_iff_ne_none.mpr (h c hc)

/-- The loop body succeeds on a line exactly when its three cells carry the
same non-empty mark. -/
theorem lineWin_eq_some (b : Board) (l : Nat × Nat × Nat) (m : Mark) :
    lineWin b l = some m ↔
      cellAt b l.1 = some m ∧ cellAt b l.2.1 = some m ∧
        cellAt b l.2.2 = some m := by
  constructor
  · intro h
    unfold lineWin at h
    split at h
    · cases h
    · rename_i m0 heq
      split_ifs at h with h2
      cases h
      exact ⟨heq, h2.1, h2.2⟩
  · rintro ⟨h1, h2, h3⟩
    unfold lineWin
    simp only [h1]
    rw [if_pos ⟨h2, h3⟩]

theorem findSome?_congr {α β : Type} (f g : α → Option β) :
    ∀ l : List α, (∀ x ∈ l, f x = g x) → l.findSome? f = l.findSome? g
  | [], _ => rfl
  | a :: l, h => by
      rw [List.findSome?_cons, List.findSome?_cons, h a (List.mem_cons_self a l)]
      cases g a with
      | none =>
          exact findSome?_congr f g l fun x hx => h x (List.mem_cons_of_mem a hx)
      | some b => rfl

theorem calculateWinner_eq_mark (b : Board) (m : Mark) :
    calculateWinner b = some (.mark m) ↔
      lines.findSome? (lineWin b) = some m := by
  unfold calculateWinner
  cases hf : lines.findSome? (lineWin b) with
  | none => split_ifs <;> simp
  | some m0 => simp

theorem calculateWinner_eq_draw (b : Board) :
    calculateWinner b = some .draw ↔
      (∀ l ∈ lines, lineWin b l = none) ∧ boardFull b := by
  unfold calculateWinner
  cases hf : lines.findSome? (lineWin b) with
  | none =>
      rw [List.findSome?_eq_none_iff] at hf
      split_ifs with hall
      · exact ⟨fun _ => ⟨hf, (boardFull_iff_all b).mp hall⟩, fun _ => rfl⟩
      · constructor
        · intro h; cases h
        · rintro ⟨_, hfull⟩
          exact absurd ((boardFull_iff_all b).mpr hfull) hall
  | some m0 =>
      constructor
      · intro h; simp at h
      · rintro ⟨hl, _⟩
        obtain ⟨l, hlmem, hlw⟩ := List.exists_of_findSome?_eq_some hf
        rw [hl l hlmem] at hlw
        cases hlw

theorem calculateWinner_eq_none (b : Board) :
    calculateWinner b = none ↔
      (∀ l ∈ lines, lineWin b l = none) ∧ ¬ boardFull b := by
  unfold calculateWinner
  cases hf : lines.findSome? (lineWin b) with
  | none =>
      rw [List.findSome?_eq_none_iff] at hf
      split_ifs with hall
      · constructor
        · intro h; cases h
        · rintro ⟨_, hfull⟩
          exact absurd ((boardFull_iff_all b).mp hall) hfull
      · exact ⟨fun _ => ⟨hf, fun hfull => hall ((boardFull_iff_all b).mpr hfull)⟩,
               fun _ => rfl⟩
  | some m0 =>
      constructor
      · intro h; cases h
      · rintro ⟨hl, _⟩
        obtain ⟨l, hlmem, hlw⟩ := List.exists_of_findSome?_eq_some hf
        rw [hl l hlmem] at hlw
        cases hlw

/-- On a full board with no winning line the scan yields `Draw`. -/
theorem calculateWinner_of_full_noline (b : Board) (hfull : boardFull b)
    (hnl : ∀ l ∈ lines, lineWin b l = none) :
    calculateWinner b = some .draw :=
  (calculateWinner_eq_draw b).mpr ⟨hnl, hfull⟩

/-- A pre-state one move away from the `[X,X,X,_,O,O,_,_,_]` scenario board. -/
def preWinDoc : MatchDoc :=
  { players := { player1Id := "alice", player2Id := some "bob" }
    board := [some .X, some .X, none, none, some .O, some .O, none, none, none]
    currentPlayer := .X
    status := .inProgress
    winner := none }

/-- **C2**: for every 9-cell board the winner scan returns mark `m` only when
one of the 8 lines is filled with `m`; returns `Draw` only when no line wins
and all 9 cells are filled; returns `none` otherwise; it is invariant under
any permutation of cell contents that changes no line's win value (hence no
false positives); and on `[X,X,X,_,O,O,_,_,_]` it returns `X`, with any
accepted move producing that board finishing the match. -/
theorem winner_characterisation :
    (∀ (b : Board) (m : Mark), b.length = 9 →
      calculateWinner b = some (.mark m) →
      ∃ l ∈ lines, cellAt b l.1 = some m ∧ cellAt b l.2.1 = some m ∧
        cellAt b l.2.2 = some m) ∧
    (∀ b : Board, b.length = 9 → calculateWinner b = some .draw →
      (∀ l ∈ lines, lineWin b l = none) ∧ boardFull b) ∧
    (∀ b : Board, b.length = 9 → calculateWinner b = none →
      (∀ l ∈ lines, lineWin b l = none) ∧ ¬ boardFull b) ∧
    (∀ b1 b2 : Board, b1.Perm b2 →
      (∀ l ∈ lines, lineWin b1 l = lineWin b2 l) →
      calculateWinner b1 = calculateWinner b2) ∧
    calculateWinner demoBoard = some (.mark .X) ∧
    (∀ (d : MatchDoc) (actorId : String) (i : Nat),
      makeMove d actorId i ≠ d → (makeMove d actorId i).board = demoBoard →
      (makeMove d actorId i).winner = some (.mark .X) ∧
      (makeMove d actorId i).status = .finished) := by
  refine ⟨?_, ?_, ?_, ?_, by decide, ?_⟩
  · intro b m _ h
    obtain ⟨l, hlmem, hlw⟩ :=
      List.exists_of_findSome?_eq_some ((calculateWinner_eq_mark b m).mp h)
    exact ⟨l, hlmem, (lineWin_eq_some b l m).mp hlw⟩
  · intro b _ h
    exact (calculateWinner_eq_draw b).mp h
  · intro b _ h
    exact (calculateWinner_eq_none b).mp h
  · intro b1 b2 hperm hl
    have hfull : (b1.all fun c => c.isSome) = (b2.all fun c => c.isSome) := by
      rw [Bool.eq_iff_iff, List.all_eq_true, List.all_eq_true]
      exact ⟨fun h c hc => h c (hperm.mem_iff.mpr hc),
             fun h c hc => h c (hperm.mem_iff.mp hc)⟩
    unfold calculateWinner
    rw [findSome?_congr (lineWin b1) (lineWin b2) lines hl, hfull]
  · intro d actorId i hne hboard
    have hacc := accepts_of_makeMove_ne d actorId i hne
    rw [makeMove_accepted d actorId i hacc] at hboard ⊢
    have hb : d.board.set i (some d.currentPlayer) = demoBoard := hboard
    constructor
    · show calculateWinner (d.board.set i (some d.currentPlayer)) =
        some (.mark .X)
      rw [hb]
      decide
    · show (if (calculateWinner
          (d.board.set i (some d.currentPlayer))).isSome then Status.finished
          else Status.inProgress) = Status.finished
      rw [hb]
      decide

/-- Witness for C2: alice completes the top row from `[X,X,_,_,O,O,_,_,_]`;
the resulting document is finished, whoever moved. -/
theorem winner_characterisation_witness :
    (makeMove preWinDoc "alice" 2).winner = some (.mark .X) ∧
    (makeMove preWinDoc "alice" 2).status = .finished :=
  winner_characterisation.2.2.2.2.2 preWinDoc "alice" 2 (by decide) (by decide)

/-- A sequence of `submitMove` calls, each a pair (actorId, cellIndex). -/
def playMoves (d : MatchDoc) : List (String × Nat) → MatchDoc
  | [] => d
  | m :: ms => playMoves (makeMove d m.1 m.2) ms

/-- Every call of the sequence is accepted by the document it actually
reaches. -/
def allAccepted : MatchDoc → List (String × Nat) → Prop
  | _, [] => True
  | d, m :: ms => accepts d m.1 m.2 ∧ allAccepted (makeMove d m.1 m.2) ms

instance instDecidableAllAccepted :
    (ms : List (String × Nat)) → (d : MatchDoc) → Decidable (allAccepted d ms)
  | [], _ => isTrue trivial
  | m :: ms, d =>
      haveI : Decidable (allAccepted (makeMove d m.1 m.2) ms) :=
        instDecidableAllAccepted ms (makeMove d m.1 m.2)
      show Decidable (accepts d m.1 m.2 ∧ allAccepted (makeMove d m.1 m.2) ms)
        from inferInstance

/-- No line of the board is filled by a single mark. -/
def noWinningLine (b : Board) : Prop := ∀ l ∈ lines, lineWin b l = none

instance (b : Board) : Decidable (noWinningLine b) := by
  unfold noWinningLine
  infer_instance

/-- The number of empty cells of a board. -/
def countEmpty (b : Board) : Nat := b.countP fun c => c.isNone

/-- Writing a mark into an empty in-range cell removes exactly one empty
cell. -/
theorem countEmpty_set (b : Board) (i : Nat) (m : Mark) (hi : i < b.length)
    (h : cellAt b i = none) :
    countEmpty (b.set i (some m)) + 1 = countEmpty b := by
  induction b generalizing i with
  | nil => exact absurd hi (Nat.not_lt_zero i)
  | cons c b ih =>
      cases i with
      | zero =>
          have hc : c = none := h
          subst hc
          show (some m :: b).countP _ + 1 = (none :: b).countP _
          rw [List.countP_cons, List.countP_cons]
          simp
      | succ i =>
          have hi' : i < b.length := Nat.lt_of_succ_lt_succ hi
          have h' : cellAt b i = none := h
          have hrec := ih i hi' h'
          unfold countEmpty at hrec
          show (c :: b.set i (some m)).countP _ + 1 = (c :: b).countP _
          rw [List.countP_cons, List.countP_cons]
          omega

/-- A board with no empty cell is full. -/
theorem boardFull_of_countEmpty_zero (b : Board) (h : countEmpty b = 0) :
    boardFull b := by
  unfold countEmpty at h
  rw [List.countP_eq_zero] at h
  intro c hc hnone
  exact (h c hc) (by rw [hnone]; rfl)

/-- `joinGame` never touches the board. -/
theorem joinGame_board (d : MatchDoc) (joinerId : String) :
    (joinGame d joinerId).board = d.board := by
  unfold joinGame
  split_ifs <;> rfl

/-- Along a run of accepted in-range moves the board keeps its 9 cells and
loses exactly one empty cell per move. -/
theorem playMoves_board (ms : List (String × Nat)) :
    ∀ d : MatchDoc, d.board.length = 9 → (∀ m ∈ ms, m.2 < 9) →
      allAccepted d ms →
      (playMoves d ms).board.length = 9 ∧
      countEmpty (playMoves d ms).board + ms.length = countEmpty d.board := by
  induction ms with
  | nil => exact fun d hlen _ _ => ⟨hlen, rfl⟩
  | cons m ms ih =>
      intro d hlen hr hacc
      obtain ⟨ha, hrest⟩ := hacc
      have hset := makeMove_accepted d m.1 m.2 ha
      have hblen : (makeMove d m.1 m.2).board.length = 9 := by
        rw [hset]
        show (d.board.set m.2 (some d.currentPlayer)).length = 9
        rw [List.length_set]
        exact hlen
      have hcnt : countEmpty (makeMove d m.1 m.2).board + 1 =
          countEmpty d.board := by
        rw [hset]
        exact countEmpty_set d.board m.2 d.currentPlayer
          (by rw [hlen]; exact hr m (List.mem_cons_self m ms)) ha.2.2.1
      obtain ⟨ih1, ih2⟩ := ih (makeMove d m.1 m.2) hblen
        (fun x hx => hr x (List.mem_cons_of_mem m hx)) hrest
      refine ⟨ih1, ?_⟩
      show countEmpty (playMoves (makeMove d m.1 m.2) ms).board +
        (ms.length + 1) = countEmpty d.board
      omega

/-- After a non-empty run of accepted moves the document's `winner` and
`status` are exactly what the last `makeMove` computed from the final
board. -/
theorem playMoves_last (ms : List (String × Nat)) :
    ∀ d : MatchDoc, ms ≠ [] → allAccepted d ms →
      (playMoves d ms).winner = calculateWinner (playMoves d ms).board ∧
      (playMoves d ms).status =
        (if (calculateWinner (playMoves d ms).board).isSome
         then Status.finished else Status.inProgress) := by
  induction ms with
  | nil => exact fun d h _ => absurd rfl h
  | cons m ms ih =>
      intro d _ hacc
      obtain ⟨ha, hrest⟩ := hacc
      cases ms with
      | nil =>
          show (makeMove d m.1 m.2).winner =
              calculateWinner (makeMove d m.1 m.2).board ∧
            (makeMove d m.1 m.2).status =
              (if (calculateWinner (makeMove d m.1 m.2).board).isSome
               then Status.finished else Status.inProgress)
          rw [makeMove_accepted d m.1 m.2 ha]
          exact ⟨rfl, rfl⟩
      | cons m2 ms2 =>
          exact ih (makeMove d m.1 m.2) (by simp) hrest

/-- **C8**: any full game of 9 accepted moves on a freshly created and joined
match that fills all 9 cells and ends with no winning line leaves the
document with `status = finished` and `winner = Draw`. -/
theorem fullGame_draw (ownerId joinerId : String) (_hne : ownerId ≠ joinerId)
    (ms : List (String × Nat)) (hlen : ms.length = 9)
    (hrange : ∀ m ∈ ms, m.2 < 9)
    (hacc : allAccepted (joinGame (createMatch ownerId) joinerId) ms)
    (hnl : noWinningLine
      (playMoves (joinGame (createMatch ownerId) joinerId) ms).board) :
    (playMoves (joinGame (createMatch ownerId) joinerId) ms).status =
      .finished ∧
    (playMoves (joinGame (createMatch ownerId) joinerId) ms).winner =
      some .draw := by
  have hb0 : (joinGame (createMatch ownerId) joinerId).board.length = 9 := by
    rw [joinGame_board]
    show (List.replicate 9 (none : Option Mark)).length = 9
    rw [List.length_replicate]
  have hcnt0 : countEmpty (joinGame (createMatch ownerId) joinerId).board
      = 9 := by
    rw [joinGame_board]
    rfl
  obtain ⟨hfl, hfc⟩ :=
    playMoves_board ms (joinGame (createMatch ownerId) joinerId) hb0 hrange hacc
  have hms : ms ≠ [] := by
    intro h
    rw [h] at hlen
    cases hlen
  obtain ⟨hw, hs⟩ :=
    playMoves_last ms (joinGame (createMatch ownerId) joinerId) hms hacc
  have hfull : boardFull
      (playMoves (joinGame (createMatch ownerId) joinerId) ms).board :=
    boardFull_of_countEmpty_zero _ (by omega)
  have hcw : calculateWinner
      (playMoves (joinGame (createMatch ownerId) joinerId) ms).board =
      some .draw :=
    calculateWinner_of_full_noline _ hfull hnl
  rw [hcw] at hw hs
  exact ⟨by rw [hs]; rfl, hw⟩

/-- A concrete drawn game: alice (X) and bob (O) alternate through all 9
cells without ever completing a line. -/
def drawMoves : List (String × Nat) :=
  [("alice", 0), ("bob", 1), ("alice", 2), ("bob", 4), ("alice", 3),
   ("bob", 5), ("alice", 7), ("bob", 6), ("alice", 8)]

/-- Witness for C8: the concrete drawn game ends with `winner = Draw`. -/
theorem fullGame_draw_witness :
    (playMoves (joinGame (createMatch "alice") "bob") drawMoves).winner =
      some .draw :=
  (fullGame_draw "alice" "bob" (by decide) drawMoves (by decide) (by decide)
    (by decide) (by decide)).2

/-!
## The Bearing Calculator

The compass script computes, in IEEE doubles, the forward azimuth from the
user's position to the Qibla and composes it with the live device heading.
The arithmetic is modelled over `ℝ`: `Math.atan2(y, x)` is the argument of
the complex number `x + y·i` (range `(-π, π]`, `atan2(0,0) = 0`, as in JS),
and the JS remainder operator `%` truncates the quotient toward zero. -/

/-- `toRadians` of the compass script: `deg * Math.PI / 180`. -/
noncomputable def toRadians (deg : ℝ) : ℝ := deg * Real.pi / 180

/-- `toDegrees` of the compass script: `rad * 180 / Math.PI`. -/
noncomputable def toDegrees (rad : ℝ) : ℝ := rad * 180 / Real.pi

/-- Truncation toward zero, as used by the JS `%` operator. -/
noncomputable def jsTrunc (z : ℝ) : ℤ := if 0 ≤ z then ⌊z⌋ else ⌈z⌉

/-- The JS remainder `x % y`: `x - y * trunc(x / y)` (sign of the dividend). -/
noncomputable def jsMod (x y : ℝ) : ℝ := x - y * (jsTrunc (x / y) : ℝ)

/-- `Math.atan2(y, x)`: the argument of `x + y·i`, in `(-π, π]`, with
`atan2(0, 0) = 0`. -/
noncomputable def atan2 (y x : ℝ) : ℝ := Complex.arg ⟨x, y⟩

/-- A latitude/longitude pair in degrees, as read from the geolocation
sensor. -/
structure GeoPoint where
  latitude : ℝ
  longitude : ℝ

/-- `getQiblaAngle(lat1, lon1, lat2, lon2)` of the compass script:
`y = sin(Δlon)·cos(lat2)`, `x = cos(lat1)·sin(lat2) −
sin(lat1)·cos(lat2)·cos(Δlon)`, `brng = toDegrees(atan2(y, x))`, result
`(brng + 360) % 360`. -/
noncomputable def getQiblaAngle (lat1 lon1 lat2 lon2 : ℝ) : ℝ :=
  jsMod
    (toDegrees (atan2
      (Real.sin (toRadians lon2 - toRadians lon1) * Real.cos (toRadians lat2))
      (Real.cos (toRadians lat1) * Real.sin (toRadians lat2) -
        Real.sin (toRadians lat1) * Real.cos (toRadians lat2) *
          Real.cos (toRadians lon2 - toRadians lon1))) + 360)
    360

/-- The spec's `bearing(origin, target)` contract, realised by
`getQiblaAngle`. -/
noncomputable def bearing (origin target : GeoPoint) : ℝ :=
  getQiblaAngle origin.latitude origin.longitude target.latitude
    target.longitude

theorem jsTrunc_of_nonneg (z : ℝ) (h : 0 ≤ z) : jsTrunc z = ⌊z⌋ := if_pos h

/-- For a nonnegative dividend the JS remainder by 360 lands in `[0, 360)`. -/
theorem jsMod_nonneg_lt (x : ℝ) (hx : 0 ≤ x) :
    0 ≤ jsMod x 360 ∧ jsMod x 360 < 360 := by
  have hdiv : (0 : ℝ) ≤ x / 360 := by positivity
  unfold jsMod
  rw [jsTrunc_of_nonneg _ hdiv]
  have h1 : x - 360 * ((⌊x / 360⌋ : ℤ) : ℝ) = 360 * Int.fract (x / 360) := by
    rw [Int.fract]
    ring
  rw [h1]
  have h2 := Int.fract_nonneg (x / 360)
  have h3 := Int.fract_lt_one (x / 360)
  constructor <;> linarith

/-- `x % x = 0` for `x = 360` under the JS remainder. -/
theorem jsMod_360_360 : jsMod 360 360 = 0 := by
  unfold jsMod
  rw [div_self (by norm_num : (360 : ℝ) ≠ 0)]
  rw [jsTrunc_of_nonneg 1 zero_le_one, Int.floor_one]
  norm_num

/-- Converting an argument to degrees lands in `(-180, 180]`. -/
theorem toDegrees_arg_bounds (z : ℂ) :
    -180 < toDegrees (Complex.arg z) ∧ toDegrees (Complex.arg z) ≤ 180 := by
  obtain ⟨h1, h2⟩ := Complex.arg_mem_Ioc z
  have hπ : 0 < Real.pi := Real.pi_pos
  unfold toDegrees
  constructor
  · rw [lt_div_iff₀ hπ]
    nlinarith
  · rw [div_le_iff₀ hπ]
    nlinarith

/-- `getQiblaAngle` always lands in `[0, 360)`. -/
theorem getQiblaAngle_bounds (lat1 lon1 lat2 lon2 : ℝ) :
    0 ≤ getQiblaAngle lat1 lon1 lat2 lon2 ∧
      getQiblaAngle lat1 lon1 lat2 lon2 < 360 := by
  unfold getQiblaAngle atan2
  apply jsMod_nonneg_lt
  have h := (toDegrees_arg_bounds
    ⟨Real.cos (toRadians lat1) * Real.sin (toRadians lat2) -
        Real.sin (toRadians lat1) * Real.cos (toRadians lat2) *
          Real.cos (toRadians lon2 - toRadians lon1),
      Real.sin (toRadians lon2 - toRadians lon1) *
        Real.cos (toRadians lat2)⟩).1
  linarith

/-- For identical points both `atan2` arguments vanish and the bearing is 0. -/
theorem bearing_self (p : GeoPoint) : bearing p p = 0 := by
  unfold bearing getQiblaAngle atan2
  have hy : Real.sin (toRadians p.longitude - toRadians p.longitude) *
      Real.cos (toRadians p.latitude) = 0 := by
    rw [sub_self, Real.sin_zero, zero_mul]
  have hx : Real.cos (toRadians p.latitude) * Real.sin (toRadians p.latitude) -
      Real.sin (toRadians p.latitude) * Real.cos (toRadians p.latitude) *
        Real.cos (toRadians p.longitude - toRadians p.longitude) = 0 := by
    rw [sub_self, Real.cos_zero, mul_one]
    ring
  rw [hy, hx]
  have hz : (⟨0, 0⟩ : ℂ) = 0 := by
    apply Complex.ext <;> simp
  rw [hz, Complex.arg_zero]
  have hdeg : toDegrees 0 + 360 = 360 := by
    unfold toDegrees
    rw [zero_mul, zero_div, zero_add]
  rw [hdeg, jsMod_360_360]

/-- From the origin, the bearing to `(0°, 90°)` (due east on the equator)
is 90. -/
theorem bearing_east : bearing ⟨0, 0⟩ ⟨0, 90⟩ = 90 := by
  unfold bearing getQiblaAngle atan2 toRadians
  norm_num
  have h90 : (90 : ℝ) * Real.pi / 180 = Real.pi / 2 := by ring
  rw [h90, Real.sin_pi_div_two]
  have hI : (⟨0, 1⟩ : ℂ) = Complex.I := by
    apply Complex.ext <;> simp
  rw [hI, Complex.arg_I]
  have hdeg : toDegrees (Real.pi / 2) = 90 := by
    unfold toDegrees
    field_simp
    ring
  rw [hdeg]
  unfold jsMod
  rw [jsTrunc_of_nonneg _ (by norm_num : (0 : ℝ) ≤ (90 + 360) / 360)]
  have hfl : ⌊(90 + 360 : ℝ) / 360⌋ = 1 := by
    rw [Int.floor_eq_iff]
    norm_num
  rw [hfl]
  norm_num

/-- From the origin, the bearing to the north pole `(90°, 0°)` is 0. -/
theorem bearing_north : bearing ⟨0, 0⟩ ⟨90, 0⟩ = 0 := by
  unfold bearing getQiblaAngle atan2 toRadians
  norm_num
  have h90 : (90 : ℝ) * Real.pi / 180 = Real.pi / 2 := by ring
  rw [h90, Real.sin_pi_div_two]
  have h1 : (⟨1, 0⟩ : ℂ) = 1 := by
    apply Complex.ext <;> simp
  rw [h1, Complex.arg_one]
  have hdeg : toDegrees 0 + 360 = 360 := by
    unfold toDegrees
    rw [zero_mul, zero_div, zero_add]
  rw [hdeg, jsMod_360_360]

/-- **C3**: `bearing` (the forward-azimuth formula of `getQiblaAngle`, with
`atan2` converted to degrees and normalised by `(· + 360) % 360`) always
returns a value in `[0, 360)`; identical points give bearing 0; from the
origin, the bearing to `(0°, 90°)` is 90 and to the north pole `(90°, 0°)`
is 0. -/
theorem bearing_spec :
    (∀ origin target : GeoPoint,
      0 ≤ bearing origin target ∧ bearing origin target < 360) ∧
    (∀ p : GeoPoint, bearing p p = 0) ∧
    bearing ⟨0, 0⟩ ⟨0, 90⟩ = 90 ∧
    bearing ⟨0, 0⟩ ⟨90, 0⟩ = 0 :=
  ⟨fun origin target => getQiblaAngle_bounds origin.latitude origin.longitude
      target.latitude target.longitude,
   bearing_self, bearing_east, bearing_north⟩

/-!
## The sensor compositor

`handleOrientation` reads the device heading `event.alpha` (or `null` when
the sensor does not report) and rotates the needle to
`displayedBearing - alpha`, where `displayedBearing` is the bearing value
currently shown by the page (the script re-parses it from the DOM; the
2-decimal display formatting is not modelled, no claim depends on it). -/

/-- The needle state: the rotation currently applied to the element and the
bearing value the page displays. -/
structure CompassState where
  rotation : ℝ
  displayedBearing : ℝ

/-- `handleOrientation(event)` of the compass script: when `alpha` is not
`null`, set the rotation to `qiblaAngle - alpha`; otherwise do nothing. -/
def handleOrientation (s : CompassState) (alpha : Option ℝ) : CompassState :=
  match alpha with
  | none => s
  | some a => { s with rotation := s.displayedBearing - a }

/-- **C9**: with a reported heading `alpha` the rotation applied to the
indicator is exactly `bearing - alpha` — unnormalised, as the concrete case
`bearing = 10, alpha = 350` (rotation `-340 < 0`) shows; with `alpha`
unavailable the state is left completely unchanged and no error occurs. -/
theorem handleOrientation_spec :
    (∀ (s : CompassState) (a : ℝ),
      (handleOrientation s (some a)).rotation = s.displayedBearing - a) ∧
    (∀ s : CompassState, handleOrientation s none = s) ∧
    (handleOrientation ⟨0, 10⟩ (some 350)).rotation < 0 := by
  refine ⟨fun s a => rfl, fun s => rfl, ?_⟩
  show (10 : ℝ) - 350 < 0
  norm_num

end GameHub
